import Mathlib

/-!
Verification of the compilation/linking core (`src/prolog/compile.rs`) of a
logic-programming engine.  The functions of that file are shallowly embedded
below; external collaborators that the file uses but whose code is not part of
the source under study (the parser, the code generator, the abstract machine)
are modelled from the specification, each such definition carrying a doc
comment starting with `Modelled from the spec:`.
-/

namespace Scryer

/-- Predicate/clause names (`ClauseName` in the source). -/
abbrev ClauseName := String

/-- `(name, arity)` pair: unique identity of a callable relation. -/
abbrev PredicateKey := ClauseName × Nat

/-- Modelled from the spec: machine flags are an opaque pass-through value
consumed only by the external code generator. -/
abbrev MachineFlags := Nat

/-- Modelled from the spec: operator fixity classes of the operator
directory's key. -/
inductive Fixity where
  | pre
  | inf
  | post
deriving DecidableEq, Repr

/-- Control instructions.  The one variant this layer inspects is the forward
jump `JmpBy`, whose offset field equal to the sentinel `0` means "not yet
resolved"; all remaining variants of the external instruction type are
modelled by `proceed` and an opaque `other`. -/
inductive ControlInstruction where
  | jmpBy (arity : Nat) (offset : Nat) (pvs : Nat) (lco : Bool)
  | proceed
  | other (tag : Nat)
deriving DecidableEq, Repr

/-- One instruction "line"; the eight kinds of the source's `Line` enum.
Payloads other than control instructions are opaque to this layer and
modelled by naturals. -/
inductive Line where
  | arithmetic (a : Nat)
  | fact (instrs : List Nat)
  | cut (c : Nat)
  | choice (tag : Bool) (c : Nat)
  | control (c : ControlInstruction)
  | indexedChoice (c : Nat)
  | indexing (i : Nat)
  | query (instrs : List Nat)
deriving DecidableEq, Repr

/-- An instruction sequence (`Code` in the source). -/
abbrev Code := List Line

/-- Parser-level errors surfaced to this layer.  `other` models the
lower-level syntax errors that are passed through unchanged. -/
inductive ParserError where
  | expectedRel
  | invalidModuleDecl
  | other (tag : Nat)
deriving DecidableEq, Repr

/-- Session-level errors of this layer. -/
inductive SessionError where
  | impermissibleEntry (s : String)
  | namelessEntry
  | moduleNotFound
  | parserError (e : ParserError)
deriving DecidableEq, Repr

/-- Session outcome handed back to the caller. -/
inductive EvalSession where
  | entrySuccess
  | error (e : SessionError)
  | queryResult (tag : Nat)
deriving DecidableEq, Repr

/-- Modelled from the spec: a parsed fact.  Its head name/arity resolution and
its generated unification instructions come from the external parser and code
generator, so they are carried as data. -/
structure FactT where
  name : Option ClauseName
  arity : Nat
  instrs : Code
deriving DecidableEq, Repr

/-- Modelled from the spec: a parsed rule; the external code generator's
outcome for it (a function of the non-counted-backtracking flag and the
machine flags) is carried as data, since rule compilation may fail with
generator-reported errors. -/
structure RuleT where
  name : Option ClauseName
  arity : Nat
  gen : Bool → MachineFlags → Except ParserError Code

/-- Modelled from the spec: one clause of a multi-clause predicate, with its
resolvable head name, arity and the external generator's outcome for it. -/
structure ClauseT where
  name : Option ClauseName
  arity : Nat
  gen : Bool → MachineFlags → Except ParserError Code

/-- A multi-clause predicate: an ordered sequence of clauses (`Predicate` in
the source). -/
structure PredicateT where
  clauses : List ClauseT

/-- Modelled from the spec: one query term; the external generator's code for
it and the variable→slot bindings it allocates are carried as data. -/
structure QueryTerm where
  gen : Bool → MachineFlags → Except ParserError Code
  vars : List (String × Nat)

/-- Modelled from the spec: an operator declaration (priority, fixity,
name). -/
structure OpDecl where
  prio : Nat
  fixity : Fixity
  name : ClauseName
deriving DecidableEq, Repr

/-- Modelled from the spec: a module header: the module's name and its
exported predicate keys. -/
structure ModuleDecl where
  name : ClauseName
  exports : List PredicateKey
deriving DecidableEq, Repr

/-- The five declaration forms handled by this layer (`Declaration` in the
source). -/
inductive Declaration where
  | op (d : OpDecl)
  | useModule (name : ClauseName)
  | useQualifiedModule (name : ClauseName) (exports : List PredicateKey)
  | module (d : ModuleDecl)
  | nonCountedBacktracking (name : ClauseName) (arity : Nat)

/-- A parsed top-level unit (`TopLevel` in the source). -/
inductive TopLevel where
  | declaration (d : Declaration)
  | query (terms : List QueryTerm)
  | predicate (p : PredicateT)
  | fact (f : FactT)
  | rule (r : RuleT)

/-- Modelled from the spec: `TopLevel::name()` of the external parser layer —
the unit's resolvable head name, if any; a multi-clause predicate takes its
first clause's name. -/
def TopLevel.name : TopLevel → Option ClauseName
  | .declaration _ => none
  | .query _ => none
  | .predicate p => p.clauses.head?.bind (fun cl => cl.name)
  | .fact f => f.name
  | .rule r => r.name

/-- Modelled from the spec: `TopLevel::arity()` of the external parser
layer. -/
def TopLevel.arity : TopLevel → Nat
  | .declaration _ => 0
  | .query _ => 0
  | .predicate p => (p.clauses.head?.map (fun cl => cl.arity)).getD 0
  | .fact f => f.arity
  | .rule r => r.arity

/-! ### Association-list directories

The source uses hash maps for the code, operator and module directories;
they are embedded as association lists with overwrite-on-insert. -/

/-- Lookup in a directory. -/
def dLookup {α β : Type} [DecidableEq α] : List (α × β) → α → Option β
  | [], _ => none
  | (k, v) :: rest, k' => if k' = k then some v else dLookup rest k'

/-- Insert, overwriting an existing binding for the key. -/
def dInsert {α β : Type} [DecidableEq α] : List (α × β) → α → β → List (α × β)
  | [], k, v => [(k, v)]
  | (k', v') :: rest, k, v =>
    if k = k' then (k, v) :: rest else (k', v') :: dInsert rest k v

/-- Insert every binding of `entries`, in order (`HashMap::extend`). -/
def dExtend {α β : Type} [DecidableEq α] (d : List (α × β)) (entries : List (α × β)) :
    List (α × β) :=
  entries.foldl (fun d kv => dInsert d kv.1 kv.2) d

/-- Address/module descriptor stored in a Code Index cell. -/
inductive IndexPtr where
  | undefined
  | index (p : Nat)
deriving DecidableEq, Repr

/-- A Code Index: address descriptor plus owning module name. -/
abbrev CodeIndex := IndexPtr × ClauseName

/-- Code Directory: predicate key → code index. -/
abbrev CodeDir := List (PredicateKey × CodeIndex)

/-- Operator directory key: name plus fixity class. -/
abbrev OpKey := ClauseName × Fixity

/-- Operator directory value: (priority, associativity tag). -/
abbrev OpVal := Nat × Nat

/-- Operator Directory. -/
abbrev OpDir := List (OpKey × OpVal)

/-- A module: its declaration (name and exports) plus its own code and
operator directories. -/
structure Module where
  module_decl : ModuleDecl
  code_dir : CodeDir
  op_dir : OpDir
deriving DecidableEq, Repr

/-- Modelled from the spec: `Module::new` — a fresh module record with empty
directories. -/
def Module.new (d : ModuleDecl) : Module :=
  { module_decl := d, code_dir := [], op_dir := [] }

/-- The compile-time index bundle (`MachineCodeIndices` in the source): a
transient working code directory, operator directory, and used-modules
record, threaded through one compile/listing cycle. -/
structure MachineCodeIndices where
  code_dir : CodeDir
  op_dir : OpDir
  in_situ : List ClauseName
deriving DecidableEq, Repr

/-- The abstract machine's state, as far as this layer observes and mutates
it: the growing code segment, the global code and operator directories, the
module registry, and the machine flags. -/
structure Machine where
  code : Code
  code_dir : CodeDir
  op_dir : OpDir
  modules : List (ClauseName × Module)
  flags : MachineFlags

/-- `wam.code_size()`: length of the machine's code segment. -/
def Machine.code_size (wam : Machine) : Nat := wam.code.length

/-- `wam.machine_flags()`. -/
def Machine.machine_flags (wam : Machine) : MachineFlags := wam.flags

/-- `wam.get_module(name)`: module registry lookup. -/
def Machine.get_module (wam : Machine) (name : ClauseName) : Option Module :=
  dLookup wam.modules name

/-! ### The external code generator, modelled -/

/-- Modelled from the spec: `cg.compile_fact` — a fact compiles to
straight-line unify-and-succeed code; this path is infallible. -/
def cgCompileFact (f : FactT) : Code :=
  f.instrs ++ [Line.control ControlInstruction.proceed]

/-- Modelled from the spec: `cg.compile_predicate` — multi-clause code; each
clause's block is produced by the generator (carried on the clause) and may
fail per-clause. -/
def cgCompilePredicate (clauses : List ClauseT) (non_counted_bt : Bool)
    (flags : MachineFlags) : Except ParserError Code := do
  let blocks ← clauses.mapM (fun cl => cl.gen non_counted_bt flags)
  return blocks.flatten

/-- Modelled from the spec: `cg.compile_rule` — head-unification plus body
code, produced by the generator; may fail. -/
def cgCompileRule (r : RuleT) (non_counted_bt : Bool) (flags : MachineFlags) :
    Except ParserError Code :=
  r.gen non_counted_bt flags

/-- Modelled from the spec: the generator's query compilation — code for the
query terms plus the variable→slot map allocated for them. -/
def cgCompileQueryTerms (terms : List QueryTerm) (non_counted_bt : Bool)
    (flags : MachineFlags) : Except ParserError (Code × List (String × Nat)) := do
  let blocks ← terms.mapM (fun t => t.gen non_counted_bt flags)
  return (blocks.flatten, (terms.map (fun t => t.vars)).flatten)

/-- Modelled from the spec: the machine's clause-type classification — the
outcome shapes of `ClauseType::from(name, arity, None)` that this layer
distinguishes. -/
inductive ClauseType where
  | named
  | op
  | builtIn (tag : Nat)
deriving DecidableEq, Repr

/-- Modelled from the spec: reserved (name, arity) pairs that classify as
built-in control or arithmetic constructs rather than plain named
relations. -/
def reservedKeys : List PredicateKey :=
  [(",", 2), (";", 2), ("->", 2), ("!", 0), ("is", 2), ("call", 1), ("=", 2)]

/-- Modelled from the spec: `ClauseType::from(name, arity, None)`. -/
def clauseTypeFrom (name : ClauseName) (arity : Nat) : ClauseType :=
  if (name, arity) ∈ reservedKeys then ClauseType.builtIn 0 else ClauseType.named

/-! ### The relation compiler (`compile_relation`, `set_first_index`,
`compile_appendix`, `compile_query` of the source) -/

/-- `compile_relation`: dispatches one unit to the code generator by shape;
throws `ExpectedRel` if a declaration or query is found. -/
def compile_relation (tl : TopLevel) (non_counted_bt : Bool) (flags : MachineFlags) :
    Except ParserError Code :=
  match tl with
  | .declaration _ => .error ParserError.expectedRel
  | .query _ => .error ParserError.expectedRel
  | .predicate clauses => cgCompilePredicate clauses.clauses non_counted_bt flags
  | .fact fact => .ok (cgCompileFact fact)
  | .rule rule => cgCompileRule rule non_counted_bt flags

/-- Does this line hold a still-unresolved forward jump (a `JmpBy` whose
offset equals the sentinel `0`)? -/
def unresolvedJmp : Line → Bool
  | .control (.jmpBy _ offset _ _) => offset == 0
  | _ => false

/-- Recursion worker for `set_first_index`: scan from index `idx`, patch the
first unresolved `JmpBy` to `code_len - idx` and stop. -/
def setFirstIndexGo (code_len : Nat) : Nat → Code → Code
  | _, [] => []
  | idx, line :: rest =>
    match line with
    | .control (.jmpBy a 0 p b) =>
      Line.control (ControlInstruction.jmpBy a (code_len - idx) p b) :: rest
    | _ => line :: setFirstIndexGo code_len (idx + 1) rest

/-- `set_first_index`: set the first `jmp_by` instruction with uninitialized
(zero) offset to `code.len() - idx`, where `idx` is the place it occurs; only
the *first* such instruction is patched. -/
def set_first_index (code : Code) : Code :=
  setFirstIndexGo code.length 0 code

/-- `compile_appendix`: for each queued unit in order, patch the first pending
jump against the code accumulated so far and append the unit's compiled
instructions. -/
def compile_appendix (code : Code) (queue : List TopLevel) (non_counted_bt : Bool)
    (flags : MachineFlags) : Except ParserError Code :=
  match queue with
  | [] => .ok code
  | tl :: rest => do
    let code' := set_first_index code
    let block ← compile_relation tl non_counted_bt flags
    compile_appendix (code' ++ block) rest non_counted_bt flags

/-- `compile_query`: compile the query terms counting backtracking inferences
(`non_counted_bt = false`), splice the appendix, and return the code together
with the variable→slot map. -/
def compile_query (terms : List QueryTerm) (queue : List TopLevel)
    (flags : MachineFlags) : Except ParserError (Code × List (String × Nat)) := do
  let (code, vars) ← cgCompileQueryTerms terms false flags
  let code ← compile_appendix code queue false flags
  return (code, vars)

/-! ### Machine mutation primitives, modelled -/

/-- Modelled from the spec: `OpDecl::submit` — record the operator's
precedence and fixity in the given operator directory under the given module
name; priorities beyond the standard bound are rejected (the op-submission
error). -/
def OpDecl.submit (od : OpDecl) (_module : ClauseName) (op_dir : OpDir) :
    Except SessionError OpDir :=
  if od.prio ≤ 1200 then
    .ok (dInsert op_dir (od.name, od.fixity) (od.prio, 0))
  else
    .error (SessionError.parserError (ParserError.other 0))

/-- Modelled from the spec: `wam.add_user_code(name, arity, code)` — append
the code to the machine's code segment and point the global directory entry
for `(name, arity)` at its start. -/
def Machine.add_user_code (wam : Machine) (name : ClauseName) (arity : Nat)
    (code : Code) : EvalSession × Machine :=
  (EvalSession.entrySuccess,
   { wam with
     code := wam.code ++ code,
     code_dir := dInsert wam.code_dir (name, arity)
                   (IndexPtr.index wam.code.length, "user") })

/-- Modelled from the spec: `wam.submit_query` — hand compiled query code and
its bindings to the execution engine; execution itself is out of scope, so the
outcome is opaque. -/
def Machine.submit_query (wam : Machine) (_code : Code)
    (_vars : List (String × Nat)) : EvalSession × Machine :=
  (EvalSession.queryResult 0, wam)

/-- Keys (with entries) exported by a module: its declared exports restricted
to those present in its code directory. -/
def importKeys (dest : CodeDir) (src : CodeDir) (keys : List PredicateKey) :
    CodeDir :=
  keys.foldl
    (fun d k =>
      match dLookup src k with
      | some v => dInsert d k v
      | none => d)
    dest

/-- Copy one operator entry of `src` into `dest`, when present. -/
def importOpEntry (dest src : OpDir) (k : OpKey) : OpDir :=
  match dLookup src k with
  | some v => dInsert dest k v
  | none => dest

/-- Copy all (up to three fixities) operator entries of one name. -/
def importOpsForName (dest src : OpDir) (n : ClauseName) : OpDir :=
  importOpEntry (importOpEntry (importOpEntry dest src (n, Fixity.pre))
    src (n, Fixity.inf)) src (n, Fixity.post)

/-- Copy the operator entries of all named operators. -/
def importOps (dest src : OpDir) (names : List ClauseName) : OpDir :=
  names.foldl (fun d n => importOpsForName d src n) dest

/-- Modelled from the spec: `indices.use_module(submodule)` — merge all of the
source module's exported code and operator entries into the bundle. -/
def MachineCodeIndices.use_module (indices : MachineCodeIndices) (m : Module) :
    MachineCodeIndices :=
  { indices with
    code_dir := importKeys indices.code_dir m.code_dir m.module_decl.exports,
    op_dir := importOps indices.op_dir m.op_dir
                (m.module_decl.exports.map (fun k => k.1)) }

/-- Modelled from the spec: `indices.use_qualified_module(submodule, exports)`
— merge only the explicitly requested predicate keys' code entries, and their
operator entries if applicable, into the bundle. -/
def MachineCodeIndices.use_qualified_module (indices : MachineCodeIndices)
    (m : Module) (exports : List PredicateKey) : MachineCodeIndices :=
  { indices with
    code_dir := importKeys indices.code_dir m.code_dir exports,
    op_dir := importOps indices.op_dir m.op_dir (exports.map (fun k => k.1)) }

/-- Modelled from the spec: `module.use_module(submodule)` — the same
whole-module merge applied to an in-progress module's own directories. -/
def Module.use_module (dest : Module) (m : Module) : Module :=
  { dest with
    code_dir := importKeys dest.code_dir m.code_dir m.module_decl.exports,
    op_dir := importOps dest.op_dir m.op_dir
                (m.module_decl.exports.map (fun k => k.1)) }

/-- Modelled from the spec: `module.use_qualified_module(submodule, exports)`
— the same selective merge applied to an in-progress module's own
directories. -/
def Module.use_qualified_module (dest : Module) (m : Module)
    (exports : List PredicateKey) : Module :=
  { dest with
    code_dir := importKeys dest.code_dir m.code_dir exports,
    op_dir := importOps dest.op_dir m.op_dir (exports.map (fun k => k.1)) }

/-- Modelled from the spec: `wam.use_module_in_toplevel(name)` — the machine's
whole-module import primitive: merge the named module's exports into the
global directories, or fail with `ModuleNotFound`. -/
def Machine.use_module_in_toplevel (wam : Machine) (name : ClauseName) :
    EvalSession × Machine :=
  match wam.get_module name with
  | some m =>
    (EvalSession.entrySuccess,
     { wam with
       code_dir := importKeys wam.code_dir m.code_dir m.module_decl.exports,
       op_dir := importOps wam.op_dir m.op_dir
                   (m.module_decl.exports.map (fun k => k.1)) })
  | none => (EvalSession.error SessionError.moduleNotFound, wam)

/-- Modelled from the spec: `wam.use_qualified_module_in_toplevel(name,
exports)` — the machine's qualified-import primitive. -/
def Machine.use_qualified_module_in_toplevel (wam : Machine) (name : ClauseName)
    (exports : List PredicateKey) : EvalSession × Machine :=
  match wam.get_module name with
  | some m =>
    (EvalSession.entrySuccess,
     { wam with
       code_dir := importKeys wam.code_dir m.code_dir exports,
       op_dir := importOps wam.op_dir m.op_dir (exports.map (fun k => k.1)) })
  | none => (EvalSession.error SessionError.moduleNotFound, wam)

/-! ### The top-level packet evaluator (`compile_decl`, `compile_packet`) -/

/-- The full relation-plus-appendix compilation performed for a clause unit
reaching `compile_decl`, with `non_counted_bt = false` throughout. -/
def declUnitCode (tl : TopLevel) (queue : List TopLevel) (flags : MachineFlags) :
    Except ParserError Code := do
  let code ← compile_relation tl false flags
  compile_appendix code queue false flags

/-- `compile_decl`: the per-unit classifier of the top-level packet
evaluator. -/
def compile_decl (wam : Machine) (tl : TopLevel) (queue : List TopLevel) :
    EvalSession × Machine :=
  match tl with
  | .declaration (.op op_decl) =>
    match op_decl.submit ("user") wam.op_dir with
    | .ok op_dir => (EvalSession.entrySuccess, { wam with op_dir := op_dir })
    | .error e => (EvalSession.error e, wam)
  | .declaration (.useModule name) => wam.use_module_in_toplevel name
  | .declaration (.useQualifiedModule name exports) =>
    wam.use_qualified_module_in_toplevel name exports
  | .declaration _ =>
    (EvalSession.error (SessionError.parserError ParserError.invalidModuleDecl), wam)
  | _ =>
    match tl.name with
    | some name =>
      match clauseTypeFrom name tl.arity with
      | .named | .op =>
        match declUnitCode tl queue wam.machine_flags with
        | .error e => (EvalSession.error (SessionError.parserError e), wam)
        | .ok code =>
          if code.isEmpty then
            (EvalSession.error
              (SessionError.impermissibleEntry ("no code generated.")), wam)
          else
            wam.add_user_code name tl.arity code
      | .builtIn _ =>
        (EvalSession.error
          (SessionError.impermissibleEntry
            (name ++ "/" ++ toString tl.arity)), wam)
    | none => (EvalSession.error SessionError.namelessEntry, wam)

/-- A top-level packet: a query plus queue, or a single unit plus queue. -/
inductive TopLevelPacket where
  | query (terms : List QueryTerm) (queue : List TopLevel)
  | decl (tl : TopLevel) (queue : List TopLevel)

/-- `compile_packet`: the single dispatcher of the packet evaluator. -/
def compile_packet (wam : Machine) (tl : TopLevelPacket) : EvalSession × Machine :=
  match tl with
  | .query terms queue =>
    match compile_query terms queue wam.machine_flags with
    | .ok (code, vars) => wam.submit_query code vars
    | .error e => (EvalSession.error (SessionError.parserError e), wam)
  | .decl tl queue => compile_decl wam tl queue

/-! ### The listing compiler -/

/-- The listing compiler's carried state (minus the machine back-reference,
which Lean threads explicitly): the non-counted-backtracking key set and the
optional in-progress module. -/
structure ListingCompiler where
  non_counted_bt_preds : List PredicateKey
  module : Option Module

/-- `ListingCompiler::new`. -/
def ListingCompiler.new : ListingCompiler :=
  { non_counted_bt_preds := [], module := none }

/-- `get_module_name`: the open module's name, or the default namespace
`"user"`. -/
def ListingCompiler.get_module_name (c : ListingCompiler) : ClauseName :=
  match c.module with
  | some m => m.module_decl.name
  | none => "user"

/-- `add_non_counted_bt_flag`. -/
def ListingCompiler.add_non_counted_bt_flag (c : ListingCompiler)
    (name : ClauseName) (arity : Nat) : ListingCompiler :=
  { c with non_counted_bt_preds := (name, arity) :: c.non_counted_bt_preds }

/-- `use_module` (free function of the source): merge into the bundle and, if
a module is open, into that module too. -/
def use_module (module : Option Module) (submodule : Module)
    (indices : MachineCodeIndices) : Option Module × MachineCodeIndices :=
  let indices := indices.use_module submodule
  match module with
  | some m => (some (m.use_module submodule), indices)
  | none => (none, indices)

/-- `use_qualified_module` (free function of the source): merge the requested
keys into the bundle and, if a module is open, into that module too. -/
def use_qualified_module (module : Option Module) (submodule : Module)
    (exports : List PredicateKey) (indices : MachineCodeIndices) :
    Option Module × MachineCodeIndices :=
  let indices := indices.use_qualified_module submodule exports
  match module with
  | some m => (some (m.use_qualified_module submodule exports), indices)
  | none => (none, indices)

/-- `ListingCompiler::process_decl`: handle one declaration against the
bundle, reading (never writing) the machine. -/
def ListingCompiler.process_decl (c : ListingCompiler) (wam : Machine)
    (decl : Declaration) (indices : MachineCodeIndices) :
    Except SessionError (ListingCompiler × MachineCodeIndices) :=
  match decl with
  | .nonCountedBacktracking name arity =>
    .ok (c.add_non_counted_bt_flag name arity, indices)
  | .op op_decl => do
    let op_dir ← op_decl.submit c.get_module_name indices.op_dir
    .ok (c, { indices with op_dir := op_dir })
  | .useModule name =>
    match wam.get_module name with
    | some submodule =>
      let (module, indices) := use_module c.module submodule indices
      .ok ({ c with module := module }, indices)
    | none => .error SessionError.moduleNotFound
  | .useQualifiedModule name exports =>
    match wam.get_module name with
    | some submodule =>
      let (module, indices) := use_qualified_module c.module submodule exports indices
      .ok ({ c with module := module }, indices)
    | none => .error SessionError.moduleNotFound
  | .module module_decl =>
    match c.module with
    | none => .ok ({ c with module := some (Module.new module_decl) }, indices)
    | some _ =>
      .error (SessionError.parserError ParserError.invalidModuleDecl)

/-- The `(name, arity)` key of a grouped predicate: taken from its first
clause, failing with `NamelessEntry` when the group is empty or its first
clause has no resolvable name. -/
def groupKey (decl : PredicateT) : Except SessionError PredicateKey :=
  match decl.clauses.head? with
  | none => .error SessionError.namelessEntry
  | some cl =>
    match cl.name with
    | some name => .ok (name, cl.arity)
    | none => .error SessionError.namelessEntry

/-- `set_code_index!`: point the directory cell for `key` at address `p`
under module `mod_name` (inserting the cell if absent). -/
def set_code_index (dir : CodeDir) (key : PredicateKey) (p : Nat)
    (mod_name : ClauseName) : CodeDir :=
  dInsert dir key (IndexPtr.index p, mod_name)

/-- One group's compiled block: its relation compiled with its resolved
non-counted-backtracking flag, with the appendix queue spliced in. -/
def groupCode (c : ListingCompiler) (wam : Machine)
    (g : PredicateT × List TopLevel) : Except SessionError Code := do
  let (name, arity) ← groupKey g.1
  let non_counted_bt := decide ((name, arity) ∈ c.non_counted_bt_preds)
  match compile_relation (TopLevel.predicate g.1) non_counted_bt
          wam.machine_flags with
  | .error e => .error (SessionError.parserError e)
  | .ok decl_code =>
    match compile_appendix decl_code g.2 non_counted_bt wam.machine_flags with
    | .error e => .error (SessionError.parserError e)
    | .ok decl_code => .ok decl_code

/-- Recursion worker for `generate_code`: `code` is the instructions emitted
so far in this call. -/
def generateCodeGo (c : ListingCompiler) (wam : Machine) :
    Code → CodeDir → List (PredicateT × List TopLevel) →
    Except SessionError (Code × CodeDir)
  | code, dir, [] => .ok (code, dir)
  | code, dir, (decl, queue) :: rest => do
    let (name, arity) ← groupKey decl
    let non_counted_bt := decide ((name, arity) ∈ c.non_counted_bt_preds)
    let p := code.length + wam.code_size
    let decl_code ←
      match compile_relation (TopLevel.predicate decl) non_counted_bt
              wam.machine_flags with
      | .error e => Except.error (SessionError.parserError e)
      | .ok dc => Except.ok dc
    let decl_code ←
      match compile_appendix decl_code queue non_counted_bt wam.machine_flags with
      | .error e => Except.error (SessionError.parserError e)
      | .ok dc => Except.ok dc
    let dir := set_code_index dir (name, arity) p c.get_module_name
    generateCodeGo c wam (code ++ decl_code) dir rest

/-- `ListingCompiler::generate_code`: compile each group in order, recording
each one's address — instructions already emitted in this call plus the
machine's code-segment length — in the working code directory. -/
def ListingCompiler.generate_code (c : ListingCompiler) (wam : Machine)
    (decls : List (PredicateT × List TopLevel)) (code_dir : CodeDir) :
    Except SessionError (Code × CodeDir) :=
  generateCodeGo c wam [] code_dir decls

/-- Modelled from the spec: `as_module_code_dir` — repackage a working code
directory as a module's own directory. -/
def as_module_code_dir (dir : CodeDir) : CodeDir := dir

/-- Modelled from the spec: `wam.add_module(module, code)` — install the
module in the registry and append its code to the code segment. -/
def Machine.add_module (wam : Machine) (module : Module) (code : Code) : Machine :=
  { wam with
    code := wam.code ++ code,
    modules := dInsert wam.modules module.module_decl.name module }

/-- Modelled from the spec: `wam.add_batched_code(code, code_dir)` — one
atomic batched addition of code and directory entries to the global store. -/
def Machine.add_batched_code (wam : Machine) (code : Code) (code_dir : CodeDir) :
    Machine :=
  { wam with
    code := wam.code ++ code,
    code_dir := dExtend wam.code_dir code_dir }

/-- Modelled from the spec: `wam.add_batched_ops(op_dir)`. -/
def Machine.add_batched_ops (wam : Machine) (op_dir : OpDir) : Machine :=
  { wam with op_dir := dExtend wam.op_dir op_dir }

/-- `ListingCompiler::add_code`: the single commit point — hand the
(module, code) pair or the batched code and directories to the machine. -/
def ListingCompiler.add_code (c : ListingCompiler) (wam : Machine) (code : Code)
    (indices : MachineCodeIndices) : Machine :=
  match c.module with
  | some module =>
    let module :=
      { module with
        code_dir := dExtend module.code_dir (as_module_code_dir indices.code_dir),
        op_dir := dExtend module.op_dir indices.op_dir }
    wam.add_module module code
  | none =>
    (wam.add_batched_code code indices.code_dir).add_batched_ops indices.op_dir

/-- Modelled from the spec: the batch parser/worker's yield — one item of a
listing's source stream: either a declaration handed to `process_decl`, or a
non-declaration unit accumulated (already grouped) into the worker's
results. -/
inductive ListingItem where
  | decl (d : Declaration)
  | group (g : PredicateT × List TopLevel)

/-- Drive the worker loop of `compile_listing`: process declarations in
stream order against the evolving compiler state and bundle, and collect the
accumulated groups in encounter order. -/
def runListingItems (c : ListingCompiler) (wam : Machine)
    (indices : MachineCodeIndices) :
    List ListingItem →
    Except SessionError
      (ListingCompiler × MachineCodeIndices × List (PredicateT × List TopLevel))
  | [] => .ok (c, indices, [])
  | .decl d :: rest => do
    let (c, indices) ← c.process_decl wam d indices
    runListingItems c wam indices rest
  | .group g :: rest => do
    let (c, indices, gs) ← runListingItems c wam indices rest
    .ok (c, indices, g :: gs)

/-- `compile_listing`: batch-load one listing — process every declaration,
generate the code for all accumulated groups, and only then commit everything
through `add_code`. -/
def compile_listing (wam : Machine) (src : List ListingItem)
    (indices : MachineCodeIndices) : EvalSession × Machine :=
  match runListingItems ListingCompiler.new wam indices src with
  | .error e => (EvalSession.error e, wam)
  | .ok (c, indices, groups) =>
    match c.generate_code wam groups indices.code_dir with
    | .error e => (EvalSession.error e, wam)
    | .ok (code, code_dir) =>
      (EvalSession.entrySuccess,
       c.add_code wam code { indices with code_dir := code_dir })

/-- Modelled from the spec: `default_op_dir()` — the default operator
directory holding the standard control operators. -/
def default_op_dir : OpDir :=
  [((":-", Fixity.inf), (1200, 0)),
   ((":-", Fixity.pre), (1200, 0)),
   ((",", Fixity.inf), (1000, 0)),
   (("?-", Fixity.pre), (1200, 0))]

/-- `compile_user_module`: load a listing against a fresh bundle (empty code
directory, default operator directory) seeded with the `builtins` module's
exports; fails with `ModuleNotFound` when `builtins` is not registered. -/
def compile_user_module (wam : Machine) (src : List ListingItem) :
    EvalSession × Machine :=
  let indices : MachineCodeIndices :=
    { code_dir := [], op_dir := default_op_dir, in_situ := [] }
  match dLookup wam.modules ("builtins") with
  | some builtins => compile_listing wam src (indices.use_module builtins)
  | none => (EvalSession.error SessionError.moduleNotFound, wam)

/-! ## Auxiliary lemmas -/

theorem dLookup_dInsert {α β : Type} [DecidableEq α] (d : List (α × β)) (k : α)
    (v : β) (k' : α) :
    dLookup (dInsert d k v) k' = if k' = k then some v else dLookup d k' := by
  induction d with
  | nil => simp [dInsert, dLookup]
  | cons kv rest ih =>
    obtain ⟨a, b⟩ := kv
    by_cases hka : k = a
    · subst hka
      simp only [dInsert, if_pos rfl]
      by_cases hk : k' = k <;> simp [dLookup, hk]
    · simp only [dInsert, if_neg hka]
      by_cases hk'a : k' = a
      · subst hk'a
        have hkk : ¬ (k' = k) := fun h => hka h.symm
        simp [dLookup, hkk]
      · simp [dLookup, hk'a, ih]

theorem setFirstIndexGo_cons_resolved (n i : Nat) (l : Line) (rest : Code)
    (h : unresolvedJmp l = false) :
    setFirstIndexGo n i (l :: rest) = l :: setFirstIndexGo n (i + 1) rest := by
  cases l with
  | control c =>
    cases c with
    | jmpBy a off p b =>
      cases off with
      | zero => simp [unresolvedJmp] at h
      | succ k => rfl
    | proceed => rfl
    | other t => rfl
  | arithmetic a => rfl
  | fact is => rfl
  | cut c => rfl
  | choice t c => rfl
  | indexedChoice c => rfl
  | indexing i => rfl
  | query is => rfl

theorem setFirstIndexGo_all_resolved (n : Nat) :
    ∀ (code : Code) (i : Nat), (∀ l ∈ code, unresolvedJmp l = false) →
      setFirstIndexGo n i code = code := by
  intro code
  induction code with
  | nil => intro i _; rfl
  | cons l rest ih =>
    intro i h
    rw [setFirstIndexGo_cons_resolved n i l rest (h l (by simp))]
    rw [ih (i + 1) (fun x hx => h x (by simp [hx]))]

theorem setFirstIndexGo_prefix (n : Nat) :
    ∀ (pre : Code) (i : Nat) (a p : Nat) (b : Bool) (post : Code),
      (∀ l ∈ pre, unresolvedJmp l = false) →
      setFirstIndexGo n i
          (pre ++ Line.control (ControlInstruction.jmpBy a 0 p b) :: post) =
        pre ++ Line.control
          (ControlInstruction.jmpBy a (n - (i + pre.length)) p b) :: post := by
  intro pre
  induction pre with
  | nil => intro i a p b post _; simp [setFirstIndexGo]
  | cons l rest ih =>
    intro i a p b post h
    rw [List.cons_append,
        setFirstIndexGo_cons_resolved n i l _ (h l (by simp)),
        ih (i + 1) a p b post (fun x hx => h x (by simp [hx]))]
    simp only [List.length_cons]
    have : i + 1 + rest.length = i + (rest.length + 1) := by omega
    rw [this]
    rfl

theorem setFirstIndexGo_length (n : Nat) :
    ∀ (code : Code) (i : Nat), (setFirstIndexGo n i code).length = code.length := by
  intro code
  induction code with
  | nil => intro i; rfl
  | cons l rest ih =>
    intro i
    by_cases h : unresolvedJmp l = true
    · obtain ⟨a, p, b, rfl⟩ : ∃ a p b,
          l = Line.control (ControlInstruction.jmpBy a 0 p b) := by
        cases l with
        | control c =>
          cases c with
          | jmpBy a off pv b =>
            cases off with
            | zero => exact ⟨a, pv, b, rfl⟩
            | succ k => simp [unresolvedJmp] at h
          | proceed => simp [unresolvedJmp] at h
          | other t => simp [unresolvedJmp] at h
        | arithmetic a => simp [unresolvedJmp] at h
        | fact is => simp [unresolvedJmp] at h
        | cut c => simp [unresolvedJmp] at h
        | choice t c => simp [unresolvedJmp] at h
        | indexedChoice c => simp [unresolvedJmp] at h
        | indexing j => simp [unresolvedJmp] at h
        | query is => simp [unresolvedJmp] at h
      simp [setFirstIndexGo]
    · rw [setFirstIndexGo_cons_resolved n i l rest (by simpa using h)]
      simp [ih]

theorem set_first_index_length (code : Code) :
    (set_first_index code).length = code.length :=
  setFirstIndexGo_length code.length code 0

/-! ## Claims -/

/-- Claim C6: For every unit of kind Query or Declaration (of any declaration
subkind), `compile_relation` fails with `ExpectedRel`, and for no such unit
does it return code. -/
theorem compile_relation_rejects_nonrel :
    ∀ (tl : TopLevel) (non_counted_bt : Bool) (flags : MachineFlags),
      ((∃ d, tl = TopLevel.declaration d) ∨ (∃ ts, tl = TopLevel.query ts)) →
      compile_relation tl non_counted_bt flags = .error ParserError.expectedRel ∧
      ∀ code, compile_relation tl non_counted_bt flags ≠ .ok code := by
  intro tl ncb flags h
  have he : compile_relation tl ncb flags = .error ParserError.expectedRel := by
    rcases h with ⟨d, rfl⟩ | ⟨ts, rfl⟩ <;> rfl
  exact ⟨he, fun code hc => by rw [he] at hc; exact Except.noConfusion hc⟩

/-- Witness for C6 at a concrete declaration unit and a concrete query
unit. -/
theorem compile_relation_rejects_nonrel_witness :
    compile_relation (TopLevel.declaration (Declaration.useModule ("lists"))) true 0 =
      .error ParserError.expectedRel ∧
    compile_relation (TopLevel.query []) false 3 =
      .error ParserError.expectedRel :=
  ⟨(compile_relation_rejects_nonrel _ true 0 (Or.inl ⟨_, rfl⟩)).1,
   (compile_relation_rejects_nonrel _ false 3 (Or.inr ⟨_, rfl⟩)).1⟩

/-- Claim C7: For every Fact unit and every value of the
non-counted-backtracking flag, `compile_relation` never fails and the
returned code has length at least 1. -/
theorem compile_relation_fact_total :
    ∀ (f : FactT) (non_counted_bt : Bool) (flags : MachineFlags),
      ∃ code, compile_relation (TopLevel.fact f) non_counted_bt flags = .ok code ∧
        1 ≤ code.length := by
  intro f ncb flags
  refine ⟨cgCompileFact f, rfl, ?_⟩
  simp [cgCompileFact]

/-- Claim C4: `set_first_index` patches exactly the lowest-index control
instruction whose jump offset equals the sentinel 0, setting its offset to
the sequence's length minus that instruction's index, leaves every other
instruction unchanged, and is a no-op (hence idempotent) when no instruction
has an unresolved offset. -/
theorem set_first_index_patches_first :
    (∀ code : Code, (∀ l ∈ code, unresolvedJmp l = false) →
      set_first_index code = code ∧
      set_first_index (set_first_index code) = set_first_index code) ∧
    (∀ (pre : Code) (a p : Nat) (b : Bool) (post : Code),
      (∀ l ∈ pre, unresolvedJmp l = false) →
      set_first_index
          (pre ++ Line.control (ControlInstruction.jmpBy a 0 p b) :: post) =
        pre ++ Line.control
          (ControlInstruction.jmpBy a
            ((pre ++ Line.control (ControlInstruction.jmpBy a 0 p b) :: post).length
              - pre.length) p b) :: post) := by
  constructor
  · intro code h
    have hid : set_first_index code = code :=
      setFirstIndexGo_all_resolved code.length code 0 h
    exact ⟨hid, by rw [hid, hid]⟩
  · intro pre a p b post h
    have := setFirstIndexGo_prefix
      (pre ++ Line.control (ControlInstruction.jmpBy a 0 p b) :: post).length
      pre 0 a p b post h
    simpa [set_first_index] using this

/-- Witness for C4: a three-line sequence with two pending jumps has only the
first one patched (to distance 2 from its index), and a sequence with no
pending jump is returned unchanged. -/
theorem set_first_index_patches_first_witness :
    set_first_index
        [Line.arithmetic 7,
         Line.control (ControlInstruction.jmpBy 2 0 1 true),
         Line.control (ControlInstruction.jmpBy 3 0 0 false)] =
      [Line.arithmetic 7,
       Line.control (ControlInstruction.jmpBy 2 2 1 true),
       Line.control (ControlInstruction.jmpBy 3 0 0 false)] ∧
    set_first_index [Line.cut 5, Line.control ControlInstruction.proceed] =
      [Line.cut 5, Line.control ControlInstruction.proceed] := by
  constructor
  · have h := set_first_index_patches_first.2 [Line.arithmetic 7] 2 1 true
      [Line.control (ControlInstruction.jmpBy 3 0 0 false)] (by decide)
    simpa using h
  · exact (set_first_index_patches_first.1
      [Line.cut 5, Line.control ControlInstruction.proceed] (by decide)).1

theorem except_bind_ok {ε α β : Type} (a : α) (f : α → Except ε β) :
    (Except.ok a : Except ε α) >>= f = f a := rfl

theorem except_bind_error {ε α β : Type} (e : ε) (f : α → Except ε β) :
    (Except.error e : Except ε α) >>= f = Except.error e := rfl

theorem except_map_ok {ε α β : Type} (a : α) (f : α → β) :
    f <$> (Except.ok a : Except ε α) = Except.ok (f a) := rfl

theorem except_map_error {ε α β : Type} (e : ε) (f : α → β) :
    f <$> (Except.error e : Except ε α) = Except.error e := rfl

theorem except_pure {ε α : Type} (a : α) :
    (pure a : Except ε α) = Except.ok a := rfl

/-- The instruction count a queued unit contributes on its own: the length of
its `compile_relation` output (zero if compilation fails). -/
def relLen (non_counted_bt : Bool) (flags : MachineFlags) (tl : TopLevel) : Nat :=
  match compile_relation tl non_counted_bt flags with
  | .ok c => c.length
  | .error _ => 0

theorem compile_appendix_cons_ok {tl : TopLevel} {ncb : Bool}
    {flags : MachineFlags} {block : Code} (code : Code) (rest : List TopLevel)
    (h : compile_relation tl ncb flags = .ok block) :
    compile_appendix code (tl :: rest) ncb flags =
      compile_appendix (set_first_index code ++ block) rest ncb flags := by
  simp [compile_appendix, h, except_bind_ok]

theorem compile_appendix_ok_length {ncb : Bool} {flags : MachineFlags} :
    ∀ (queue : List TopLevel) (code out : Code),
      compile_appendix code queue ncb flags = .ok out →
      out.length = code.length + (queue.map (relLen ncb flags)).sum := by
  intro queue
  induction queue with
  | nil =>
    intro code out h
    simp only [compile_appendix] at h
    cases h
    simp
  | cons tl rest ih =>
    intro code out h
    cases hrel : compile_relation tl ncb flags with
    | error e =>
      simp [compile_appendix, hrel, except_bind_error] at h
    | ok block =>
      rw [compile_appendix_cons_ok code rest hrel] at h
      have := ih (set_first_index code ++ block) out h
      simp only [List.length_append, set_first_index_length] at this
      simp only [List.map_cons, List.sum_cons, relLen, hrel]
      omega

/-- Claim C5: `compile_appendix` on queue `[A, B]` produces exactly
`patch(patch(code) ++ compile(A)) ++ compile(B)`; on any queue whose units all
compile, the output is the input plus every unit's own block, totalling the
input length plus the sum of the units' own instruction counts; and permuting
the queue preserves the total (each unit's own count being unchanged),
changing only addresses/offsets. -/
theorem compile_appendix_splice :
    (∀ (code : Code) (A B : TopLevel) (ncb : Bool) (flags : MachineFlags)
       (cA cB : Code),
      compile_relation A ncb flags = .ok cA →
      compile_relation B ncb flags = .ok cB →
      compile_appendix code [A, B] ncb flags =
        .ok (set_first_index (set_first_index code ++ cA) ++ cB)) ∧
    (∀ (code : Code) (queue : List TopLevel) (ncb : Bool) (flags : MachineFlags),
      (∀ tl ∈ queue, ∃ b, compile_relation tl ncb flags = .ok b) →
      ∃ out, compile_appendix code queue ncb flags = .ok out ∧
        out.length = code.length + (queue.map (relLen ncb flags)).sum) ∧
    (∀ (code : Code) (q q' : List TopLevel) (ncb : Bool) (flags : MachineFlags)
       (out out' : Code), q.Perm q' →
      compile_appendix code q ncb flags = .ok out →
      compile_appendix code q' ncb flags = .ok out' →
      out.length = out'.length) := by
  refine ⟨?_, ?_, ?_⟩
  · intro code A B ncb flags cA cB hA hB
    rw [compile_appendix_cons_ok code [B] hA,
        compile_appendix_cons_ok (set_first_index code ++ cA) [] hB]
    rfl
  · intro code queue ncb flags
    induction queue generalizing code with
    | nil => intro _; exact ⟨code, rfl, by simp⟩
    | cons tl rest ih =>
      intro h
      obtain ⟨b, hb⟩ := h tl (by simp)
      obtain ⟨out, hout, hlen⟩ :=
        ih (set_first_index code ++ b) (fun x hx => h x (by simp [hx]))
      refine ⟨out, ?_, ?_⟩
      · rw [compile_appendix_cons_ok code rest hb]; exact hout
      · simp only [List.length_append, set_first_index_length] at hlen
        simp only [List.map_cons, List.sum_cons, relLen, hb]
        omega
  · intro code q q' ncb flags out out' hperm hq hq'
    rw [compile_appendix_ok_length q code out hq,
        compile_appendix_ok_length q' code out' hq']
    have := (hperm.map (relLen ncb flags)).sum_eq
    omega

/-- Witness for C5 on concrete data: a pending jump followed by two queued
facts; the two patches are visible in the result, and a swapped queue yields
the same total length. -/
theorem compile_appendix_splice_witness :
    compile_appendix [Line.control (ControlInstruction.jmpBy 1 0 0 true)]
        [TopLevel.fact { name := some ("a"), arity := 0, instrs := [Line.cut 1] },
         TopLevel.fact { name := some ("b"), arity := 0, instrs := [] }]
        false 0 =
      .ok [Line.control (ControlInstruction.jmpBy 1 1 0 true),
           Line.cut 1, Line.control ControlInstruction.proceed,
           Line.control ControlInstruction.proceed] := by
  have h := compile_appendix_splice.1
    [Line.control (ControlInstruction.jmpBy 1 0 0 true)]
    (TopLevel.fact { name := some ("a"), arity := 0, instrs := [Line.cut 1] })
    (TopLevel.fact { name := some ("b"), arity := 0, instrs := [] })
    false 0
    [Line.cut 1, Line.control ControlInstruction.proceed]
    [Line.control ControlInstruction.proceed]
    rfl rfl
  rw [h]
  rfl

/-- Claim C8: `compile_query` succeeds exactly when the query terms compile
under `non_counted_backtracking = false` and the queue splices (also with
`false`) through the very same `compile_appendix` the relation compiler uses;
the returned map is the generator's variable→slot map. -/
theorem compile_query_counted :
    ∀ (terms : List QueryTerm) (queue : List TopLevel) (flags : MachineFlags)
      (code : Code) (vars : List (String × Nat)),
      compile_query terms queue flags = .ok (code, vars) ↔
        ∃ qcode, cgCompileQueryTerms terms false flags = .ok (qcode, vars) ∧
          compile_appendix qcode queue false flags = .ok code := by
  intro terms queue flags code vars
  constructor
  · intro h
    cases hq : cgCompileQueryTerms terms false flags with
    | error e => simp [compile_query, hq, except_bind_error] at h
    | ok cv =>
      obtain ⟨qcode, qvars⟩ := cv
      simp only [compile_query, hq, except_bind_ok] at h
      cases ha : compile_appendix qcode queue false flags with
      | error e =>
        simp only [ha, except_bind_error, except_map_error] at h
        exact Except.noConfusion h
      | ok out =>
        simp only [ha, except_bind_ok, except_map_ok, except_pure,
          Except.ok.injEq, Prod.mk.injEq] at h
        obtain ⟨rfl, rfl⟩ := h
        exact ⟨qcode, rfl, ha⟩
  · rintro ⟨qcode, hq, ha⟩
    simp [compile_query, hq, ha, except_bind_ok, except_map_ok, except_pure]

/-- Witness for C8: a one-term query with binding `X ↦ 0` and an empty queue
round-trips through the characterization. -/
theorem compile_query_counted_witness :
    compile_query
        [{ gen := fun _ _ => .ok [Line.query [4]], vars := [("X", 0)] }]
        [] 2 =
      .ok ([Line.query [4]], [("X", 0)]) :=
  (compile_query_counted _ [] 2 [Line.query [4]] [("X", 0)]).mpr
    ⟨[Line.query [4]], rfl, rfl⟩

/-- Is this unit a Fact, Rule or Predicate (the shapes the packet evaluator
treats as clause definitions)? -/
def TopLevel.isClauseUnit : TopLevel → Bool
  | .predicate _ => true
  | .fact _ => true
  | .rule _ => true
  | _ => false

theorem compile_decl_clause_eq (wam : Machine) (tl : TopLevel)
    (queue : List TopLevel) (h : tl.isClauseUnit = true) :
    compile_decl wam tl queue =
      match tl.name with
      | some name =>
        match clauseTypeFrom name tl.arity with
        | .named | .op =>
          match declUnitCode tl queue wam.machine_flags with
          | .error e => (EvalSession.error (SessionError.parserError e), wam)
          | .ok code =>
            if code.isEmpty then
              (EvalSession.error
                (SessionError.impermissibleEntry ("no code generated.")), wam)
            else
              wam.add_user_code name tl.arity code
        | .builtIn _ =>
          (EvalSession.error
            (SessionError.impermissibleEntry
              (name ++ "/" ++ toString tl.arity)), wam)
      | none => (EvalSession.error SessionError.namelessEntry, wam) := by
  cases tl with
  | declaration d => simp [TopLevel.isClauseUnit] at h
  | query ts => simp [TopLevel.isClauseUnit] at h
  | predicate p => rfl
  | fact f => rfl
  | rule r => rfl

/-- Claim C3: For every Fact/Rule/Predicate unit reaching `compile_decl`: no
resolvable head name fails with `NamelessEntry`; a (name, arity) that does
not classify as a plain named relation fails with `ImpermissibleEntry`; empty
compiled code fails with `ImpermissibleEntry`; otherwise the code is
installed under (name, arity); and on every failure the machine is exactly as
before. -/
theorem compile_decl_unit_outcomes :
    ∀ (wam : Machine) (tl : TopLevel) (queue : List TopLevel),
      tl.isClauseUnit = true →
      (tl.name = none →
        compile_decl wam tl queue = (.error SessionError.namelessEntry, wam)) ∧
      (∀ name t, tl.name = some name →
        clauseTypeFrom name tl.arity = ClauseType.builtIn t →
        compile_decl wam tl queue =
          (.error (SessionError.impermissibleEntry
            (name ++ "/" ++ toString tl.arity)), wam)) ∧
      (∀ name e, tl.name = some name →
        clauseTypeFrom name tl.arity = ClauseType.named →
        declUnitCode tl queue wam.machine_flags = .error e →
        compile_decl wam tl queue =
          (.error (SessionError.parserError e), wam)) ∧
      (∀ name, tl.name = some name →
        clauseTypeFrom name tl.arity = ClauseType.named →
        declUnitCode tl queue wam.machine_flags = .ok [] →
        compile_decl wam tl queue =
          (.error (SessionError.impermissibleEntry ("no code generated.")), wam)) ∧
      (∀ name code, tl.name = some name →
        clauseTypeFrom name tl.arity = ClauseType.named →
        declUnitCode tl queue wam.machine_flags = .ok code → code ≠ [] →
        compile_decl wam tl queue =
          (EvalSession.entrySuccess,
           { wam with
             code := wam.code ++ code,
             code_dir := dInsert wam.code_dir (name, tl.arity)
               (IndexPtr.index wam.code.length, "user") })) ∧
      (∀ e m', compile_decl wam tl queue = (.error e, m') → m' = wam) := by
  intro wam tl queue h
  refine ⟨?_, ?_, ?_, ?_, ?_, ?_⟩
  · intro hn
    rw [compile_decl_clause_eq wam tl queue h, hn]
  · intro name t hn hct
    rw [compile_decl_clause_eq wam tl queue h, hn]
    simp only [hct]
  · intro name e hn hct hdc
    rw [compile_decl_clause_eq wam tl queue h, hn]
    simp only [hct, hdc]
  · intro name hn hct hdc
    rw [compile_decl_clause_eq wam tl queue h, hn]
    simp only [hct, hdc, List.isEmpty_nil, if_pos]
  · intro name code hn hct hdc hne
    rw [compile_decl_clause_eq wam tl queue h, hn]
    simp only [hct, hdc]
    rw [if_neg (by simpa using hne)]
    rfl
  · intro e m' hres
    rw [compile_decl_clause_eq wam tl queue h] at hres
    cases hn : tl.name with
    | none =>
      rw [hn] at hres
      simp only [Prod.mk.injEq] at hres
      exact hres.2.symm
    | some name =>
      rw [hn] at hres
      cases hct : clauseTypeFrom name tl.arity with
      | builtIn t =>
        simp only [hct, Prod.mk.injEq] at hres
        exact hres.2.symm
      | named =>
        simp only [hct] at hres
        cases hdc : declUnitCode tl queue wam.machine_flags with
        | error e' =>
          simp only [hdc, Prod.mk.injEq] at hres
          exact hres.2.symm
        | ok code =>
          simp only [hdc] at hres
          by_cases hemp : code.isEmpty = true
          · rw [if_pos hemp] at hres
            simp only [Prod.mk.injEq] at hres
            exact hres.2.symm
          · rw [if_neg hemp] at hres
            simp [Machine.add_user_code, Prod.mk.injEq] at hres
      | op =>
        simp only [hct] at hres
        cases hdc : declUnitCode tl queue wam.machine_flags with
        | error e' =>
          simp only [hdc, Prod.mk.injEq] at hres
          exact hres.2.symm
        | ok code =>
          simp only [hdc] at hres
          by_cases hemp : code.isEmpty = true
          · rw [if_pos hemp] at hres
            simp only [Prod.mk.injEq] at hres
            exact hres.2.symm
          · rw [if_neg hemp] at hres
            simp [Machine.add_user_code, Prod.mk.injEq] at hres

/-- Witness for C3: installing a one-fact definition `foo/1` into a concrete
machine extends its code segment and points `foo/1` at the old length. -/
theorem compile_decl_unit_outcomes_witness :
    compile_decl
        { code := [Line.cut 0], code_dir := [], op_dir := [], modules := [],
          flags := 0 }
        (TopLevel.fact { name := some ("foo"), arity := 1, instrs := [Line.fact [2]] })
        [] =
      (EvalSession.entrySuccess,
       { code := [Line.cut 0, Line.fact [2],
                  Line.control ControlInstruction.proceed],
         code_dir := [(("foo", 1), (IndexPtr.index 1, "user"))],
         op_dir := [], modules := [], flags := 0 }) ∧
    compile_decl
        { code := [Line.cut 0], code_dir := [], op_dir := [], modules := [],
          flags := 0 }
        (TopLevel.fact { name := none, arity := 0, instrs := [] }) [] =
      (.error SessionError.namelessEntry,
       { code := [Line.cut 0], code_dir := [], op_dir := [], modules := [],
         flags := 0 }) := by
  constructor
  · have h := ((compile_decl_unit_outcomes
      { code := [Line.cut 0], code_dir := [], op_dir := [], modules := [],
        flags := 0 }
      (TopLevel.fact { name := some ("foo"), arity := 1, instrs := [Line.fact [2]] })
      []) rfl).2.2.2.2.1 ("foo")
      [Line.fact [2], Line.control ControlInstruction.proceed]
      rfl (by decide) rfl (by simp)
    rw [h]
    rfl
  · exact ((compile_decl_unit_outcomes
      { code := [Line.cut 0], code_dir := [], op_dir := [], modules := [],
        flags := 0 }
      (TopLevel.fact { name := none, arity := 0, instrs := [] }) []) rfl).1 rfl

/-- Claim C2: Any failure before commit aborts the whole listing with the
machine untouched; in particular a second Module declaration fails with
`InvalidModuleDecl`, an import of an unregistered module fails with
`ModuleNotFound`, and a group whose first clause has no resolvable name makes
code generation fail with `NamelessEntry`; a two-module listing returns
`InvalidModuleDecl` with the machine exactly as before. -/
theorem compile_listing_atomic :
    (∀ (wam : Machine) (src : List ListingItem) (indices : MachineCodeIndices)
       (e : SessionError) (m' : Machine),
      compile_listing wam src indices = (.error e, m') → m' = wam) ∧
    (∀ (c : ListingCompiler) (wam : Machine) (md : ModuleDecl)
       (indices : MachineCodeIndices) (m : Module),
      c.module = some m →
      c.process_decl wam (.module md) indices =
        .error (SessionError.parserError ParserError.invalidModuleDecl)) ∧
    (∀ (c : ListingCompiler) (wam : Machine) (name : ClauseName)
       (indices : MachineCodeIndices),
      wam.get_module name = none →
      c.process_decl wam (.useModule name) indices =
        .error SessionError.moduleNotFound ∧
      ∀ exports, c.process_decl wam (.useQualifiedModule name exports) indices =
        .error SessionError.moduleNotFound) ∧
    (∀ (g : PredicateT),
      (g.clauses.head?.bind fun cl => cl.name) = none →
      ∀ (c : ListingCompiler) (wam : Machine) (code : Code) (dir : CodeDir)
        (queue : List TopLevel) (rest : List (PredicateT × List TopLevel)),
      generateCodeGo c wam code dir ((g, queue) :: rest) =
        .error SessionError.namelessEntry) ∧
    (∀ (wam : Machine) (indices : MachineCodeIndices) (md1 md2 : ModuleDecl),
      compile_listing wam
        [ListingItem.decl (Declaration.module md1),
         ListingItem.decl (Declaration.module md2)] indices =
        (.error (SessionError.parserError ParserError.invalidModuleDecl), wam)) := by
  refine ⟨?_, ?_, ?_, ?_, ?_⟩
  · intro wam src indices e m' h
    simp only [compile_listing] at h
    cases hrun : runListingItems ListingCompiler.new wam indices src with
    | error e' =>
      simp only [hrun, Prod.mk.injEq] at h
      exact h.2.symm
    | ok t =>
      obtain ⟨c, indices', groups⟩ := t
      simp only [hrun] at h
      cases hgen : c.generate_code wam groups indices'.code_dir with
      | error e' =>
        simp only [hgen, Prod.mk.injEq] at h
        exact h.2.symm
      | ok cd =>
        obtain ⟨code, code_dir⟩ := cd
        simp only [hgen, Prod.mk.injEq] at h
        exact absurd h.1 (by simp)
  · intro c wam md indices m hm
    simp only [ListingCompiler.process_decl, hm]
  · intro c wam name indices hnone
    constructor
    · simp only [ListingCompiler.process_decl, hnone]
    · intro exports
      simp only [ListingCompiler.process_decl, hnone]
  · intro g hname c wam code dir queue rest
    have hkey : groupKey g = .error SessionError.namelessEntry := by
      unfold groupKey
      cases hh : g.clauses.head? with
      | none => rfl
      | some cl =>
        rw [hh] at hname
        simp at hname
        simp only [hname]
    simp [generateCodeGo, hkey, except_bind_error]
  · intro wam indices md1 md2
    rfl

/-- Witness for C2: a concrete listing with two module headers leaves a
concrete machine exactly as it was, returning `InvalidModuleDecl`. -/
theorem compile_listing_atomic_witness :
    compile_listing
        { code := [Line.cut 9], code_dir := [], op_dir := [], modules := [],
          flags := 0 }
        [ListingItem.decl (Declaration.module { name := "m1", exports := [] }),
         ListingItem.decl (Declaration.module { name := "m2", exports := [] })]
        { code_dir := [], op_dir := [], in_situ := [] } =
      (.error (SessionError.parserError ParserError.invalidModuleDecl),
       { code := [Line.cut 9], code_dir := [], op_dir := [], modules := [],
         flags := 0 }) :=
  compile_listing_atomic.2.2.2.2 _ _ _ _

/-- The `(name, arity)` keys of a listing's groups, in order. -/
def groupKeys : List (PredicateT × List TopLevel) →
    Except SessionError (List PredicateKey)
  | [] => .ok []
  | g :: rest => do
    let k ← groupKey g.1
    let ks ← groupKeys rest
    .ok (k :: ks)

/-- The compiled blocks (relation plus appendix) of a listing's groups, in
order. -/
def groupCodes (c : ListingCompiler) (wam : Machine) :
    List (PredicateT × List TopLevel) → Except SessionError (List Code)
  | [] => .ok []
  | g :: rest => do
    let b ← groupCode c wam g
    let bs ← groupCodes c wam rest
    .ok (b :: bs)

theorem groupKeys_cons {g : PredicateT × List TopLevel}
    {rest : List (PredicateT × List TopLevel)} {keys : List PredicateKey}
    (h : groupKeys (g :: rest) = .ok keys) :
    ∃ k ks, groupKey g.1 = .ok k ∧ groupKeys rest = .ok ks ∧ keys = k :: ks := by
  cases hk : groupKey g.1 with
  | error e => simp [groupKeys, hk, except_bind_error] at h
  | ok k =>
    cases hks : groupKeys rest with
    | error e =>
      simp [groupKeys, hk, hks, except_bind_ok, except_bind_error] at h
    | ok ks =>
      simp only [groupKeys, hk, hks, except_bind_ok, Except.ok.injEq] at h
      exact ⟨k, ks, rfl, rfl, h.symm⟩

theorem groupCodes_cons {c : ListingCompiler} {wam : Machine}
    {g : PredicateT × List TopLevel} {rest : List (PredicateT × List TopLevel)}
    {blocks : List Code} (h : groupCodes c wam (g :: rest) = .ok blocks) :
    ∃ b bs, groupCode c wam g = .ok b ∧ groupCodes c wam rest = .ok bs ∧
      blocks = b :: bs := by
  cases hb : groupCode c wam g with
  | error e => simp [groupCodes, hb, except_bind_error] at h
  | ok b =>
    cases hbs : groupCodes c wam rest with
    | error e =>
      simp [groupCodes, hb, hbs, except_bind_ok, except_bind_error] at h
    | ok bs =>
      simp only [groupCodes, hb, hbs, except_bind_ok, Except.ok.injEq] at h
      exact ⟨b, bs, rfl, rfl, h.symm⟩

theorem generateCodeGo_cons_ok {c : ListingCompiler} {wam : Machine}
    {decl : PredicateT} {queue : List TopLevel} {name : ClauseName}
    {arity : Nat} {block : Code}
    (code : Code) (dir : CodeDir) (rest : List (PredicateT × List TopLevel))
    (hkey : groupKey decl = .ok (name, arity))
    (hblock : groupCode c wam (decl, queue) = .ok block) :
    generateCodeGo c wam code dir ((decl, queue) :: rest) =
      generateCodeGo c wam (code ++ block)
        (set_code_index dir (name, arity) (code.length + wam.code_size)
          c.get_module_name) rest := by
  simp only [groupCode, hkey, except_bind_ok] at hblock
  cases hrel : compile_relation (TopLevel.predicate decl)
      (decide ((name, arity) ∈ c.non_counted_bt_preds)) wam.machine_flags with
  | error e =>
    simp only [hrel] at hblock
    exact Except.noConfusion hblock
  | ok dc =>
    simp only [hrel] at hblock
    cases happ : compile_appendix dc queue
        (decide ((name, arity) ∈ c.non_counted_bt_preds)) wam.machine_flags with
    | error e =>
      simp only [happ] at hblock
      exact Except.noConfusion hblock
    | ok dc2 =>
      simp only [happ, Except.ok.injEq] at hblock
      subst hblock
      simp only [generateCodeGo, hkey, except_bind_ok, hrel, happ]

theorem generateCodeGo_preserve {c : ListingCompiler} {wam : Machine} :
    ∀ (groups : List (PredicateT × List TopLevel)) (keys : List PredicateKey)
      (blocks : List Code) (code0 : Code) (dir0 : CodeDir) (codeN : Code)
      (dirN : CodeDir),
      groupKeys groups = .ok keys →
      groupCodes c wam groups = .ok blocks →
      generateCodeGo c wam code0 dir0 groups = .ok (codeN, dirN) →
      ∀ k, k ∉ keys → dLookup dirN k = dLookup dir0 k := by
  intro groups
  induction groups with
  | nil =>
    intro keys blocks code0 dir0 codeN dirN _ _ hgen k _
    simp only [generateCodeGo, Except.ok.injEq, Prod.mk.injEq] at hgen
    rw [hgen.2]
  | cons g rest ih =>
    intro keys blocks code0 dir0 codeN dirN hkeys hblocks hgen k hk
    obtain ⟨key0, keys', hk0, hks, rfl⟩ := groupKeys_cons hkeys
    obtain ⟨block0, blocks', hb0, hbs, rfl⟩ := groupCodes_cons hblocks
    obtain ⟨n0, a0⟩ := key0
    obtain ⟨decl, queue⟩ := g
    rw [generateCodeGo_cons_ok code0 dir0 rest hk0 hb0] at hgen
    have hk' : k ∉ keys' := fun hmem => hk (by simp [hmem])
    have hkk0 : ¬ (k = (n0, a0)) := fun hmem => hk (by simp [hmem])
    rw [ih keys' blocks' (code0 ++ block0) _ codeN dirN hks hbs hgen k hk']
    simp [set_code_index, dLookup_dInsert, hkk0]

theorem generateCodeGo_spec {c : ListingCompiler} {wam : Machine} :
    ∀ (groups : List (PredicateT × List TopLevel)) (keys : List PredicateKey)
      (blocks : List Code) (code0 : Code) (dir0 : CodeDir) (codeN : Code)
      (dirN : CodeDir),
      groupKeys groups = .ok keys →
      groupCodes c wam groups = .ok blocks →
      keys.Nodup →
      generateCodeGo c wam code0 dir0 groups = .ok (codeN, dirN) →
      codeN = code0 ++ blocks.flatten ∧
      ∀ i (hik : i < keys.length) (hib : i < blocks.length),
        dLookup dirN (keys.get ⟨i, hik⟩) =
          some (IndexPtr.index
            (code0.length + wam.code_size +
              ((blocks.take i).map List.length).sum),
           c.get_module_name) := by
  intro groups
  induction groups with
  | nil =>
    intro keys blocks code0 dir0 codeN dirN hkeys hblocks _ hgen
    simp only [groupKeys, Except.ok.injEq] at hkeys
    simp only [groupCodes, Except.ok.injEq] at hblocks
    obtain rfl := hkeys
    obtain rfl := hblocks
    simp only [generateCodeGo, Except.ok.injEq, Prod.mk.injEq] at hgen
    refine ⟨by simp [hgen.1.symm], ?_⟩
    intro i hik
    simp at hik
  | cons g rest ih =>
    intro keys blocks code0 dir0 codeN dirN hkeys hblocks hnd hgen
    obtain ⟨key0, keys', hk0, hks, rfl⟩ := groupKeys_cons hkeys
    obtain ⟨block0, blocks', hb0, hbs, rfl⟩ := groupCodes_cons hblocks
    obtain ⟨n0, a0⟩ := key0
    obtain ⟨decl, queue⟩ := g
    rw [generateCodeGo_cons_ok code0 dir0 rest hk0 hb0] at hgen
    have hnotin : ((n0, a0) : PredicateKey) ∉ keys' := (List.nodup_cons.mp hnd).1
    have hnd' : keys'.Nodup := (List.nodup_cons.mp hnd).2
    obtain ⟨hcode, hidx⟩ :=
      ih keys' blocks' (code0 ++ block0) _ codeN dirN hks hbs hnd' hgen
    constructor
    · rw [hcode]; simp
    · intro i hik hib
      cases i with
      | zero =>
        have hpres := generateCodeGo_preserve rest keys' blocks'
          (code0 ++ block0) _ codeN dirN hks hbs hgen (n0, a0) hnotin
        simp only [List.get]
        rw [hpres]
        simp [set_code_index, dLookup_dInsert]
      | succ j =>
        have hj := hidx j (by simpa using hik) (by simpa using hib)
        have harith :
            (code0 ++ block0).length + wam.code_size +
              ((blocks'.take j).map List.length).sum =
            code0.length + wam.code_size +
              (((block0 :: blocks').take (j + 1)).map List.length).sum := by
          simp [List.length_append, List.take_succ_cons]
          omega
        rw [harith] at hj
        simpa using hj

/-- Claim C1: For every listing, with `L` the machine's code-segment length
when `generate_code` runs, and groups compiled in order into blocks of
lengths `l1..ln` (each block including the group's appendix code), the Code
Index entry recorded for group `i`'s (name, arity) holds address
`L + l1 + ... + l(i-1)`; the emitted code is exactly the blocks in order. -/
theorem generate_code_address_invariant :
    ∀ (c : ListingCompiler) (wam : Machine)
      (groups : List (PredicateT × List TopLevel)) (dir0 : CodeDir)
      (keys : List PredicateKey) (blocks : List Code) (code : Code)
      (dir : CodeDir),
      groupKeys groups = .ok keys →
      groupCodes c wam groups = .ok blocks →
      keys.Nodup →
      c.generate_code wam groups dir0 = .ok (code, dir) →
      code = blocks.flatten ∧
      ∀ i (hik : i < keys.length) (hib : i < blocks.length),
        dLookup dir (keys.get ⟨i, hik⟩) =
          some (IndexPtr.index
            (wam.code_size + ((blocks.take i).map List.length).sum),
           c.get_module_name) := by
  intro c wam groups dir0 keys blocks code dir hkeys hblocks hnd hgen
  obtain ⟨hcode, hidx⟩ :=
    generateCodeGo_spec groups keys blocks [] dir0 code dir hkeys hblocks hnd hgen
  refine ⟨by simpa using hcode, ?_⟩
  intro i hik hib
  simpa using hidx i hik hib

/-- Witness for C1: a listing of two one-clause groups `foo/1` (block length
2) and `bar/1` (block length 1) against a machine whose code segment has
length 1 records `foo/1 ↦ 1` and `bar/1 ↦ 3`. -/
theorem generate_code_address_invariant_witness :
    dLookup [((("foo" : ClauseName), 1),
              ((IndexPtr.index 1 : IndexPtr), ("user" : ClauseName))),
             ((("bar" : ClauseName), 1),
              ((IndexPtr.index 3 : IndexPtr), ("user" : ClauseName)))]
        (("foo" : ClauseName), 1) = some (IndexPtr.index 1, "user") ∧
    dLookup [((("foo" : ClauseName), 1),
              ((IndexPtr.index 1 : IndexPtr), ("user" : ClauseName))),
             ((("bar" : ClauseName), 1),
              ((IndexPtr.index 3 : IndexPtr), ("user" : ClauseName)))]
        (("bar" : ClauseName), 1) = some (IndexPtr.index 3, "user") := by
  have h := generate_code_address_invariant ListingCompiler.new
    { code := [Line.cut 9], code_dir := [], op_dir := [], modules := [],
      flags := 0 }
    [(PredicateT.mk [ClauseT.mk (some ("foo")) 1
        (fun _ _ => .ok [Line.choice false 0,
                         Line.control ControlInstruction.proceed])], []),
     (PredicateT.mk [ClauseT.mk (some ("bar")) 1
        (fun _ _ => .ok [Line.fact [3]])], [])]
    []
    [("foo", 1), ("bar", 1)]
    [[Line.choice false 0, Line.control ControlInstruction.proceed],
     [Line.fact [3]]]
    [Line.choice false 0, Line.control ControlInstruction.proceed,
     Line.fact [3]]
    [(("foo", 1), (IndexPtr.index 1, "user")),
     (("bar", 1), (IndexPtr.index 3, "user"))]
    rfl rfl (by decide) rfl
  constructor
  · have h0 := h.2 0 (by decide) (by decide)
    simpa using h0
  · have h1 := h.2 1 (by decide) (by decide)
    simpa using h1

theorem dLookup_importKeys (src : CodeDir) (k : PredicateKey) :
    ∀ (keys : List PredicateKey) (dest : CodeDir),
      dLookup (importKeys dest src keys) k =
        if k ∈ keys ∧ (dLookup src k).isSome then dLookup src k
        else dLookup dest k := by
  intro keys
  induction keys with
  | nil => intro dest; simp [importKeys]
  | cons k0 rest ih =>
    intro dest
    have step : importKeys dest src (k0 :: rest) =
        importKeys
          (match dLookup src k0 with
           | some v => dInsert dest k0 v
           | none => dest) src rest := rfl
    rw [step, ih]
    by_cases hk : k ∈ rest ∧ (dLookup src k).isSome
    · rw [if_pos hk, if_pos ⟨by simp [hk.1], hk.2⟩]
    · rw [if_neg hk]
      by_cases hkk0 : k = k0
      · subst hkk0
        cases hsrc : dLookup src k with
        | none => simp [hsrc, hk]
        | some v => simp [hsrc, dLookup_dInsert]
      · have hcond : ¬ (k ∈ k0 :: rest ∧ (dLookup src k).isSome) := by
          intro hcon
          rcases hcon with ⟨hmem, hsome⟩
          rcases List.mem_cons.mp hmem with h1 | h1
          · exact hkk0 h1
          · exact hk ⟨h1, hsome⟩
        cases hsrc : dLookup src k0 with
        | none =>
          simp only [hsrc]
          rw [if_neg hcond]
        | some v =>
          simp only [hsrc]
          rw [dLookup_dInsert, if_neg hkk0, if_neg hcond]

theorem dLookup_importOpEntry (dest src : OpDir) (k0 k : OpKey) :
    dLookup (importOpEntry dest src k0) k =
      if k = k0 ∧ (dLookup src k0).isSome then dLookup src k0
      else dLookup dest k := by
  unfold importOpEntry
  cases hsrc : dLookup src k0 with
  | none => simp [hsrc]
  | some v => simp [hsrc, dLookup_dInsert]

theorem dLookup_importOpsForName (dest src : OpDir) (n0 : ClauseName)
    (n : ClauseName) (f : Fixity) :
    dLookup (importOpsForName dest src n0) (n, f) =
      if n = n0 ∧ (dLookup src (n, f)).isSome then dLookup src (n, f)
      else dLookup dest (n, f) := by
  unfold importOpsForName
  rw [dLookup_importOpEntry, dLookup_importOpEntry, dLookup_importOpEntry]
  by_cases hn : n = n0
  · subst hn
    cases f <;> by_cases hs : (dLookup src (n, Fixity.pre)).isSome <;>
      by_cases hs2 : (dLookup src (n, Fixity.inf)).isSome <;>
      by_cases hs3 : (dLookup src (n, Fixity.post)).isSome <;>
      simp_all [Prod.ext_iff]
  · have h1 : ¬ ((n, f) = (n0, Fixity.pre) ∧
        (dLookup src (n0, Fixity.pre)).isSome) := by
      intro hcon; exact hn (congrArg Prod.fst hcon.1)
    have h2 : ¬ ((n, f) = (n0, Fixity.inf) ∧
        (dLookup src (n0, Fixity.inf)).isSome) := by
      intro hcon; exact hn (congrArg Prod.fst hcon.1)
    have h3 : ¬ ((n, f) = (n0, Fixity.post) ∧
        (dLookup src (n0, Fixity.post)).isSome) := by
      intro hcon; exact hn (congrArg Prod.fst hcon.1)
    simp [h1, h2, h3, hn]

theorem dLookup_importOps (src : OpDir) (n : ClauseName) (f : Fixity) :
    ∀ (names : List ClauseName) (dest : OpDir),
      dLookup (importOps dest src names) (n, f) =
        if n ∈ names ∧ (dLookup src (n, f)).isSome then dLookup src (n, f)
        else dLookup dest (n, f) := by
  intro names
  induction names with
  | nil => intro dest; simp [importOps]
  | cons n0 rest ih =>
    intro dest
    have step : importOps dest src (n0 :: rest) =
        importOps (importOpsForName dest src n0) src rest := rfl
    rw [step, ih, dLookup_importOpsForName]
    by_cases hk : n ∈ rest ∧ (dLookup src (n, f)).isSome
    · rw [if_pos hk, if_pos ⟨by simp [hk.1], hk.2⟩]
    · rw [if_neg hk]
      by_cases hnn0 : n = n0
      · subst hnn0
        by_cases hs : (dLookup src (n, f)).isSome
        · simp [hs]
        · simp [hs, hk]
      · have hcond : ¬ (n ∈ n0 :: rest ∧ (dLookup src (n, f)).isSome) := by
          intro hcon
          rcases hcon with ⟨hmem, hsome⟩
          rcases List.mem_cons.mp hmem with h1 | h1
          · exact hnn0 h1
          · exact hk ⟨h1, hsome⟩
        have hpair : ¬ (n = n0 ∧ (dLookup src (n, f)).isSome) :=
          fun hcon => hnn0 hcon.1
        rw [if_neg hpair, if_neg hcond]

/-- Claim C9: `use_qualified_module` merges into the destination bundle exactly
the requested keys' code entries (and their operator entries) from the source
module — every other binding is exactly as before — and, when a module is
open, applies the same merge to that module's own directories. -/
theorem use_qualified_module_exact :
    ∀ (module : Option Module) (submodule : Module)
      (exports : List PredicateKey) (indices : MachineCodeIndices),
      (∀ k,
        dLookup (use_qualified_module module submodule exports indices).2.code_dir k =
          if k ∈ exports ∧ (dLookup submodule.code_dir k).isSome
          then dLookup submodule.code_dir k
          else dLookup indices.code_dir k) ∧
      (∀ n f,
        dLookup (use_qualified_module module submodule exports indices).2.op_dir (n, f) =
          if n ∈ exports.map Prod.fst ∧ (dLookup submodule.op_dir (n, f)).isSome
          then dLookup submodule.op_dir (n, f)
          else dLookup indices.op_dir (n, f)) ∧
      (module = none →
        (use_qualified_module module submodule exports indices).1 = none) ∧
      (∀ m, module = some m →
        ∃ m2, (use_qualified_module module submodule exports indices).1 = some m2 ∧
          m2.module_decl = m.module_decl ∧
          (∀ k, dLookup m2.code_dir k =
            if k ∈ exports ∧ (dLookup submodule.code_dir k).isSome
            then dLookup submodule.code_dir k
            else dLookup m.code_dir k) ∧
          (∀ n f, dLookup m2.op_dir (n, f) =
            if n ∈ exports.map Prod.fst ∧ (dLookup submodule.op_dir (n, f)).isSome
            then dLookup submodule.op_dir (n, f)
            else dLookup m.op_dir (n, f))) := by
  intro module submodule exports indices
  refine ⟨?_, ?_, ?_, ?_⟩
  · intro k
    cases module <;>
      simp [use_qualified_module, MachineCodeIndices.use_qualified_module,
        dLookup_importKeys]
  · intro n f
    cases module <;>
      simp [use_qualified_module, MachineCodeIndices.use_qualified_module,
        dLookup_importOps]
  · intro hm
    subst hm
    rfl
  · intro m hm
    subst hm
    refine ⟨m.use_qualified_module submodule exports, rfl, rfl, ?_, ?_⟩
    · intro k
      simp [Module.use_qualified_module, dLookup_importKeys]
    · intro n f
      simp [Module.use_qualified_module, dLookup_importOps]

/-- Witness for C9: requesting only `a/1` from a two-export source module
copies exactly `a/1`, leaves the unrequested `b/2` invisible, and keeps the
destination's pre-existing `c/3`. -/
theorem use_qualified_module_exact_witness :
    dLookup (use_qualified_module none
        (Module.mk (ModuleDecl.mk ("m") [("a", 1), ("b", 2)])
          [(("a", 1), (IndexPtr.index 0, "m")), (("b", 2), (IndexPtr.index 5, "m"))]
          [])
        [("a", 1)]
        (MachineCodeIndices.mk [(("c", 3), (IndexPtr.index 7, "user"))] [] [])).2.code_dir
      ("a", 1) = some (IndexPtr.index 0, "m") ∧
    dLookup (use_qualified_module none
        (Module.mk (ModuleDecl.mk ("m") [("a", 1), ("b", 2)])
          [(("a", 1), (IndexPtr.index 0, "m")), (("b", 2), (IndexPtr.index 5, "m"))]
          [])
        [("a", 1)]
        (MachineCodeIndices.mk [(("c", 3), (IndexPtr.index 7, "user"))] [] [])).2.code_dir
      ("b", 2) = none ∧
    dLookup (use_qualified_module none
        (Module.mk (ModuleDecl.mk ("m") [("a", 1), ("b", 2)])
          [(("a", 1), (IndexPtr.index 0, "m")), (("b", 2), (IndexPtr.index 5, "m"))]
          [])
        [("a", 1)]
        (MachineCodeIndices.mk [(("c", 3), (IndexPtr.index 7, "user"))] [] [])).2.code_dir
      ("c", 3) = some (IndexPtr.index 7, "user") := by
  refine ⟨?_, ?_, ?_⟩
  · have h := (use_qualified_module_exact none
      (Module.mk (ModuleDecl.mk ("m") [("a", 1), ("b", 2)])
        [(("a", 1), (IndexPtr.index 0, "m")), (("b", 2), (IndexPtr.index 5, "m"))]
        [])
      [("a", 1)]
      (MachineCodeIndices.mk [(("c", 3), (IndexPtr.index 7, "user"))] [] [])).1 ("a", 1)
    rw [h]
    rfl
  · have h := (use_qualified_module_exact none
      (Module.mk (ModuleDecl.mk ("m") [("a", 1), ("b", 2)])
        [(("a", 1), (IndexPtr.index 0, "m")), (("b", 2), (IndexPtr.index 5, "m"))]
        [])
      [("a", 1)]
      (MachineCodeIndices.mk [(("c", 3), (IndexPtr.index 7, "user"))] [] [])).1 ("b", 2)
    rw [h]
    rfl
  · have h := (use_qualified_module_exact none
      (Module.mk (ModuleDecl.mk ("m") [("a", 1), ("b", 2)])
        [(("a", 1), (IndexPtr.index 0, "m")), (("b", 2), (IndexPtr.index 5, "m"))]
        [])
      [("a", 1)]
      (MachineCodeIndices.mk [(("c", 3), (IndexPtr.index 7, "user"))] [] [])).1 ("c", 3)
    rw [h]
    rfl

/-- Claim C10: With no `builtins` module registered, `compile_user_module`
returns `ModuleNotFound` for every source input, leaving the machine
untouched; with `builtins` registered, the listing runs against a bundle
built from a fresh (empty code directory, default operator directory) state
extended with the builtins module's exports — not from the machine's global
directories. -/
theorem compile_user_module_builtins :
    ∀ (wam : Machine) (src : List ListingItem),
      (dLookup wam.modules ("builtins") = none →
        compile_user_module wam src = (.error SessionError.moduleNotFound, wam)) ∧
      (∀ builtins, dLookup wam.modules ("builtins") = some builtins →
        compile_user_module wam src =
          compile_listing wam src
            (MachineCodeIndices.use_module
              (MachineCodeIndices.mk [] default_op_dir []) builtins) ∧
        (MachineCodeIndices.use_module
            (MachineCodeIndices.mk [] default_op_dir []) builtins).code_dir =
          importKeys [] builtins.code_dir builtins.module_decl.exports) := by
  intro wam src
  constructor
  · intro hnone
    simp [compile_user_module, hnone]
  · intro builtins hsome
    refine ⟨?_, rfl⟩
    simp [compile_user_module, hsome]

/-- Witness for C10: a machine with a non-empty global code directory but no
`builtins` module is returned unchanged together with `ModuleNotFound`. -/
theorem compile_user_module_builtins_witness :
    compile_user_module
        { code := [], code_dir := [(("g", 1), (IndexPtr.index 0, "user"))],
          op_dir := [], modules := [], flags := 0 } [] =
      (.error SessionError.moduleNotFound,
       { code := [], code_dir := [(("g", 1), (IndexPtr.index 0, "user"))],
         op_dir := [], modules := [], flags := 0 }) :=
  (compile_user_module_builtins
    { code := [], code_dir := [(("g", 1), (IndexPtr.index 0, "user"))],
      op_dir := [], modules := [], flags := 0 } []).1 rfl

end Scryer
